import Mathlib

/-!
Verification of the SiteIntel address-intelligence pipeline.

This file is a shallow embedding of the relevant parts of src/app.py and
src/api.py: the text normalizer, the address-candidate classifier, page
discovery, the site extractor, the address parser, the enrichment clients,
the confidence scorer, and the deduplication registry.

Modelling conventions:
  - Python str is modelled as Lean String; Python len(s) is the number of
    code points, i.e. s.data.length, which agrees with String.length.
  - The third-party unidecode function (not part of this repository) is a
    parameter ud of the functions that use it, constrained in theorems by
    its documented contract: its output is ASCII, and it is the identity
    on ASCII input.
  - Python str.upper and str.lower are modelled with Char.toUpper and
    Char.toLower, which agree with Python on ASCII text; normalize_text
    only ever uppercases unidecode output, which is ASCII.
  - Regex character classes are modelled on their ASCII fragment, matching
    the data the pipeline feeds them.
  - Network calls (requests.get, requests.post, the Nominatim and Google
    geocoding services) are parameters returning Option values; none
    models a failed call (an exception caught by the source) and some
    models the data the source reads out of the parsed response.
  - Functions that recurse on a shrinking but non-structural argument use
    an explicit fuel parameter initialised to more than the input length;
    each recursive step consumes one fuel unit and strictly shortens the
    list, so the fuel never runs out. This keeps every definition
    kernel-computable.
  - All definitions are executable; nothing is noncomputable.
-/

/-! ## Python character classes (ASCII fragment) -/

/-- Python regex whitespace class for ASCII text: the characters matched by
the \s class that the source uses in re.sub and str.strip. -/
def isPySpace (c : Char) : Bool :=
  c = ' ' || c = '\t' || c = '\n' || c = '\r' || c = '\x0b' || c = '\x0c'

/-- Python regex word class for ASCII text: alphanumeric or underscore. -/
def isWordChar (c : Char) : Bool :=
  c.isAlphanum || c = '_'

/-- Every character of the string is ASCII. -/
def allAscii (s : String) : Bool :=
  s.data.all (fun c => c.toNat ≤ 127)

/-- Python str.upper on ASCII text. -/
def pyUpper (s : String) : String :=
  String.mk (s.data.map Char.toUpper)

/-- Python str.lower on ASCII text. -/
def pyLower (s : String) : String :=
  String.mk (s.data.map Char.toLower)

/-- Python str.strip on a character list: drop whitespace on both ends. -/
def pyStripList (l : List Char) : List Char :=
  ((l.dropWhile isPySpace).reverse.dropWhile isPySpace).reverse

/-- Python str.strip. -/
def pyStrip (s : String) : String :=
  String.mk (pyStripList s.data)

/-- Worker for collapseWS: prevSpace records whether the previous input
character was whitespace, so that each maximal whitespace run emits a
single space at its first character. -/
def collapseAux (prevSpace : Bool) : List Char → List Char
  | [] => []
  | c :: cs =>
    if isPySpace c then
      if prevSpace then collapseAux true cs else ' ' :: collapseAux true cs
    else c :: collapseAux false cs

/-- Python re.sub of one-or-more whitespace with a single space: every
maximal run of whitespace characters becomes one space. -/
def collapseWS (l : List Char) : List Char :=
  collapseAux false l

/-- The characters kept by re.sub removing every non-word non-space
character, as in normalize_text. -/
def keepWordSpace (c : Char) : Bool :=
  isWordChar c || isPySpace c

/-- The pipeline applied by normalize_text after upper-casing: delete
non-word non-space characters, collapse whitespace runs, strip. -/
def normCore (l : List Char) : List Char :=
  pyStripList (collapseWS (l.filter keepWordSpace))

/-- normalize_text from src/app.py lines 43 to 47: transliterate with
unidecode (the parameter ud), uppercase, delete punctuation, collapse
whitespace, strip. -/
def normalize_text (ud : String → String) (text : String) : String :=
  String.mk (normCore (pyUpper (ud text)).data)

/-! ## Generic string helpers used by the source -/

/-- Substring test on character lists, modelling the Python in operator
on strings. -/
def hasSubList (n : List Char) : List Char → Bool
  | [] => n.isEmpty
  | c :: cs => n.isPrefixOf (c :: cs) || hasSubList n cs

/-- Python needle in hay, substring containment. -/
def containsSub (needle hay : String) : Bool :=
  hasSubList needle.data hay.data

/-- Python s.startswith p. -/
def pyStartsWith (s p : String) : Bool :=
  p.data.isPrefixOf s.data

/-! ## Splitting on commas, semicolons and newlines -/

/-- One separator character of the re.split pattern used by the parser:
comma, semicolon or newline. -/
def isSepChar (c : Char) : Bool :=
  c = ',' || c = ';' || c = '\n'

/-- Python re.split on the comma, semicolon, newline pattern, keeping
empty pieces, as re.split does. -/
def splitSeps : List Char → List (List Char)
  | [] => [[]]
  | c :: cs =>
    if isSepChar c then [] :: splitSeps cs
    else
      match splitSeps cs with
      | [] => [[c]]
      | w :: ws => (c :: w) :: ws

/-- The parts list computed at src/app.py line 391: split on comma,
semicolon or newline, strip each piece, keep the non-empty ones. -/
def pyParts (s : String) : List String :=
  ((splitSeps s.data).map (fun w => String.mk (pyStripList w))).filter (fun t => !(t == ""))

/-! ## SHORT_FORMS expansion (whole-word regex substitution) -/

/-- SHORT_FORMS from src/app.py lines 26 to 30, in dict insertion order. -/
def SHORT_FORMS : List (String × String) :=
  [("RD", "ROAD"), ("ST", "STREET"), ("AVE", "AVENUE"), ("BLVD", "BOULEVARD"),
   ("DR", "DRIVE"), ("LN", "LANE"), ("PL", "PLACE")]

/-- Whether an optional character is a regex word character; none stands
for the start or end of the string, which is never a word character. -/
def isWordB : Option Char → Bool
  | none => false
  | some c => isWordChar c

/-- Case-insensitive prefix match of a pattern against a text, modelling
re.IGNORECASE matching of a literal word. -/
def ciMatchFront : List Char → List Char → Bool
  | [], _ => true
  | _ :: _, [] => false
  | p :: ps, b :: bs => (Char.toUpper b == Char.toUpper p) && ciMatchFront ps bs

/-- Worker for subWordAll. At each position, if the word k matches
case-insensitively with a word boundary on both sides (the keys of
SHORT_FORMS start and end with letters, so both boundaries require a
non-word neighbour or the string edge), the match is replaced by v and
scanning resumes after it, as re.sub does with non-overlapping matches;
otherwise the character is kept. prev is the original character before
the current position. The fuel starts above the list length and each
step shortens the list, so fuel zero is never reached. -/
def subWordFuel (k v : List Char) : Nat → Option Char → List Char → List Char
  | 0, _, l => l
  | _ + 1, _, [] => []
  | fuel + 1, prev, c :: cs =>
    if !k.isEmpty && !(isWordB prev) && ciMatchFront k (c :: cs)
        && !(isWordB ((c :: cs).drop k.length).head?) then
      v ++ subWordFuel k v fuel (((c :: cs).take k.length).getLast?) ((c :: cs).drop k.length)
    else c :: subWordFuel k v fuel (some c) cs

/-- Python re.sub of a whole word (backslash-b k backslash-b) by v with
re.IGNORECASE, as applied to each SHORT_FORMS pair. -/
def subWordAll (k v : List Char) (l : List Char) : List Char :=
  subWordFuel k v (l.length + 1) none l

/-- The SHORT_FORMS loop of src/app.py lines 388 to 389: sequential
whole-word substitutions in dict order. -/
def expandShortForms (s : String) : String :=
  SHORT_FORMS.foldl (fun acc kv => String.mk (subWordAll kv.1.data kv.2.data acc.data)) s

/-! ## Postal-code search and removal inside the last part -/

/-- Leftmost match of the pin-code regex of src/app.py line 396: five
digits optionally followed by a hyphen and four more digits, with no word
boundaries, greedy on the optional group. -/
def findPin : List Char → Option (List Char)
  | [] => none
  | c :: cs =>
    if ((c :: cs).take 5).length = 5 && ((c :: cs).take 5).all Char.isDigit then
      match (c :: cs).drop 5 with
      | '-' :: ds =>
        if (ds.take 4).length = 4 && (ds.take 4).all Char.isDigit then
          some ((c :: cs).take 10)
        else some ((c :: cs).take 5)
      | _ => some ((c :: cs).take 5)
    else findPin cs

/-- Worker for removeAll with fuel, as for subWordFuel. -/
def removeAllFuel (pat : List Char) : Nat → List Char → List Char
  | 0, l => l
  | _ + 1, [] => []
  | fuel + 1, c :: cs =>
    if !pat.isEmpty && pat.isPrefixOf (c :: cs) then
      removeAllFuel pat fuel ((c :: cs).drop pat.length)
    else c :: removeAllFuel pat fuel cs

/-- Python str.replace of pat by the empty string: remove every
non-overlapping occurrence, scanning left to right. -/
def removeAll (pat l : List Char) : List Char :=
  removeAllFuel pat (l.length + 1) l

/-- Worker for pySplitWhitespace, accumulating the current word in
reverse. -/
def wordsRevAux (cur : List Char) : List Char → List (List Char)
  | [] => if cur.isEmpty then [] else [cur.reverse]
  | c :: cs =>
    if isPySpace c then
      if cur.isEmpty then wordsRevAux [] cs else cur.reverse :: wordsRevAux [] cs
    else wordsRevAux (c :: cur) cs

/-- Python str.split with no argument: split on whitespace runs and drop
empty pieces. -/
def pySplitWhitespace (s : String) : List String :=
  (wordsRevAux [] s.data).map String.mk

/-! ## The structured address record -/

/-- The six string fields of the structured address dict built by
standardize_address_dict: STREET ADDRESS 1, STREET ADDRESS 2, CITY,
STATE, PIN CODE, COUNTRY. -/
structure AddressRec where
  street1 : String
  street2 : String
  city : String
  state : String
  pin : String
  country : String
deriving DecidableEq

/-- The all-empty record that standardize_address_dict starts from. -/
def emptyRec : AddressRec := ⟨"", "", "", "", "", ""⟩

/-- standardize_address_dict from src/app.py lines 376 to 409: normalize,
expand SHORT_FORMS, split into parts on comma, semicolon or newline; the
first part is street line 1; when there are at least two parts, search
the last part for a pin code, remove it, and classify the remaining
tokens as state (a single token of length at most three) or country (the
last token); when there are at least three parts, the second-to-last
part is the city. STREET ADDRESS 2 is never assigned. -/
def standardize_address_dict (ud : String → String) (raw : String) : AddressRec :=
  if raw = "" then emptyRec else
  let r := expandShortForms (normalize_text ud raw)
  let parts := pyParts r
  let street1 := parts.headD ""
  let lastPart := parts.getLastD ""
  let pinAndRest :=
    match findPin lastPart.data with
    | some g => (String.mk g, String.mk (pyStripList (removeAll g lastPart.data)))
    | none => ("", lastPart)
  let tokens := pySplitWhitespace pinAndRest.2
  let isShortSingle := tokens.length = 1 && (tokens.headD "").length ≤ 3
  let stateVal := if isShortSingle then tokens.headD "" else ""
  let countryVal := if !tokens.isEmpty && !isShortSingle then tokens.getLastD "" else ""
  ⟨street1, "",
   if parts.length ≥ 3 then parts.getD (parts.length - 2) "" else "",
   if parts.length ≥ 2 then stateVal else "",
   if parts.length ≥ 2 then pinAndRest.1 else "",
   if parts.length ≥ 2 then countryVal else ""⟩

/-- standardize_address from src/app.py lines 59 to 70: the string-valued
standardizer returning the primary street line. -/
def standardize_address (ud : String → String) (raw : String) : String :=
  if raw = "" then "" else
  let rawNorm := expandShortForms (normalize_text ud raw)
  let parts := pyParts rawNorm
  match parts with
  | p :: _ => p
  | [] => rawNorm

/-- STANDARD_COUNTRIES from src/app.py lines 32 to 38. The table is
defined by the source but standardize_address_dict never consults it. -/
def STANDARD_COUNTRIES : List (String × String) :=
  [("USA", "UNITED STATES OF AMERICA"),
   ("US", "UNITED STATES OF AMERICA"),
   ("UNITED STATES", "UNITED STATES OF AMERICA"),
   ("UK", "UNITED KINGDOM OF GREAT BRITAIN AND NORTHERN IRELAND"),
   ("UNITED KINGDOM", "UNITED KINGDOM OF GREAT BRITAIN AND NORTHERN IRELAND")]

/-! ## Confidence scorer -/

/-- calculate_confidence from src/app.py lines 859 to 873: 40 points for a
non-empty street line 1, 15 each for city, state, pin code and country,
capped at 100. Python truthiness of a string field is non-emptiness. -/
def calculate_confidence (addr : AddressRec) : Nat :=
  let score := 0
  let score := if addr.street1 ≠ "" then score + 40 else score
  let score := if addr.city ≠ "" then score + 15 else score
  let score := if addr.state ≠ "" then score + 15 else score
  let score := if addr.pin ≠ "" then score + 15 else score
  let score := if addr.country ≠ "" then score + 15 else score
  min score 100

/-! ## Fingerprints: hash_address and MD5 -/

/-- The key string built by hash_address at src/app.py lines 50 to 56:
the five fingerprint fields joined with a vertical-bar separator. -/
def hashKey (addr : AddressRec) : String :=
  addr.street1 ++ "|" ++ addr.city ++ "|" ++ addr.state ++ "|" ++ addr.pin ++ "|" ++ addr.country

/-- UTF-8 encoding of one character, modelling Python str.encode. -/
def utf8Char (c : Char) : List Nat :=
  let v := c.toNat
  if v < 128 then [v]
  else if v < 2048 then [192 + v / 64, 128 + v % 64]
  else if v < 65536 then [224 + v / 4096, 128 + v / 64 % 64, 128 + v % 64]
  else [240 + v / 262144, 128 + v / 4096 % 64, 128 + v / 64 % 64, 128 + v % 64]

/-- UTF-8 byte sequence of a string. -/
def utf8Bytes (s : String) : List Nat :=
  (s.data.map utf8Char).flatten

/-- The 64 MD5 sine-derived round constants. -/
def md5K : List Nat :=
  [3614090360, 3905402710, 606105819, 3250441966, 4118548399, 1200080426, 2821735955, 4249261313,
   1770035416, 2336552879, 4294925233, 2304563134, 1804603682, 4254626195, 2792965006, 1236535329,
   4129170786, 3225465664, 643717713, 3921069994, 3593408605, 38016083, 3634488961, 3889429448,
   568446438, 3275163606, 4107603335, 1163531501, 2850285829, 4243563512, 1735328473, 2368359562,
   4294588738, 2272392833, 1839030562, 4259657740, 2763975236, 1272893353, 4139469664, 3200236656,
   681279174, 3936430074, 3572445317, 76029189, 3654602809, 3873151461, 530742520, 3299628645,
   4096336452, 1126891415, 2878612391, 4237533241, 1700485571, 2399980690, 4293915773, 2240044497,
   1873313359, 4264355552, 2734768916, 1309151649, 4149444226, 3174756917, 718787259, 3951481745]

/-- The 64 MD5 per-round left-rotation amounts. -/
def md5S : List Nat :=
  [7, 12, 17, 22, 7, 12, 17, 22, 7, 12, 17, 22, 7, 12, 17, 22,
   5, 9, 14, 20, 5, 9, 14, 20, 5, 9, 14, 20, 5, 9, 14, 20,
   4, 11, 16, 23, 4, 11, 16, 23, 4, 11, 16, 23, 4, 11, 16, 23,
   6, 10, 15, 21, 6, 10, 15, 21, 6, 10, 15, 21, 6, 10, 15, 21]

/-- Two to the thirty-two, the MD5 word modulus. -/
def w32 : Nat := 4294967296

/-- Bitwise complement of a 32-bit word. -/
def mnot (x : Nat) : Nat := 4294967295 - x

/-- Left rotation of a 32-bit word. -/
def rotl32 (x n : Nat) : Nat := ((x <<< n) % w32) ||| (x >>> (32 - n))

/-- Little-endian byte expansion, n bytes of x. -/
def toLE : Nat → Nat → List Nat
  | 0, _ => []
  | n + 1, x => (x % 256) :: toLE n (x / 256)

/-- MD5 padding: a one bit, zeros up to fifty-six modulo sixty-four, then
the bit length as a 64-bit little-endian quantity. -/
def md5pad (msg : List Nat) : List Nat :=
  let z := (119 - msg.length % 64) % 64
  msg ++ [128] ++ List.replicate z 0 ++ toLE 8 (8 * msg.length % 18446744073709551616)

/-- The sixteen little-endian 32-bit words of a 64-byte chunk. -/
def md5words : List Nat → List Nat
  | b0 :: b1 :: b2 :: b3 :: rest => (b0 + 256 * b1 + 65536 * b2 + 16777216 * b3) :: md5words rest
  | _ => []

/-- MD5 round function F. -/
def md5F (b c d : Nat) : Nat := (b &&& c) ||| (mnot b &&& d)

/-- MD5 round function G. -/
def md5G (b c d : Nat) : Nat := (d &&& b) ||| (mnot d &&& c)

/-- MD5 round function H. -/
def md5H (b c d : Nat) : Nat := b ^^^ c ^^^ d

/-- MD5 round function I. -/
def md5I (b c d : Nat) : Nat := c ^^^ (b ||| mnot d)

/-- One MD5 round on the state (a, b, c, d). -/
def md5Step (m : List Nat) (st : Nat × Nat × Nat × Nat) (i : Nat) : Nat × Nat × Nat × Nat :=
  let a := st.1
  let b := st.2.1
  let c := st.2.2.1
  let d := st.2.2.2
  let fg :=
    if i < 16 then (md5F b c d, i)
    else if i < 32 then (md5G b c d, (5 * i + 1) % 16)
    else if i < 48 then (md5H b c d, (3 * i + 5) % 16)
    else (md5I b c d, (7 * i) % 16)
  let t := (a + fg.1 + md5K.getD i 0 + m.getD fg.2 0) % w32
  (d, (b + rotl32 t (md5S.getD i 0)) % w32, b, c)

/-- Process one 64-byte chunk. -/
def md5Chunk (st : Nat × Nat × Nat × Nat) (chunk : List Nat) : Nat × Nat × Nat × Nat :=
  let m := md5words chunk
  let r := (List.range 64).foldl (md5Step m) st
  ((st.1 + r.1) % w32, (st.2.1 + r.2.1) % w32, (st.2.2.1 + r.2.2.1) % w32,
   (st.2.2.2 + r.2.2.2) % w32)

/-- Process every chunk; the fuel starts above the byte count and each
step consumes sixty-four bytes, so it never runs out. -/
def md5Blocks : Nat → (Nat × Nat × Nat × Nat) → List Nat → Nat × Nat × Nat × Nat
  | 0, st, _ => st
  | _ + 1, st, [] => st
  | fuel + 1, st, b :: bs => md5Blocks fuel (md5Chunk st ((b :: bs).take 64)) ((b :: bs).drop 64)

/-- One lowercase hexadecimal digit. -/
def hexDigitChar (n : Nat) : Char := "0123456789abcdef".data.getD n '0'

/-- Two lowercase hexadecimal digits of a byte. -/
def hexByte (b : Nat) : List Char := [hexDigitChar (b / 16), hexDigitChar (b % 16)]

/-- Eight hexadecimal digits of a 32-bit word, little-endian byte order as
in the MD5 digest. -/
def wordHexLE (x : Nat) : List Char := ((toLE 4 x).map hexByte).flatten

/-- hashlib.md5 of the UTF-8 bytes of a string, as a lowercase
hexadecimal digest string. -/
def md5hex (s : String) : String :=
  let bytes := md5pad (utf8Bytes s)
  let st := md5Blocks (bytes.length + 1) (1732584193, 4023233417, 2562383102, 271733878) bytes
  String.mk (wordHexLE st.1 ++ wordHexLE st.2.1 ++ wordHexLE st.2.2.1 ++ wordHexLE st.2.2.2)

/-- hash_address from src/app.py lines 49 to 57: the MD5 hexdigest of the
joined fingerprint fields. -/
def hash_address (addr : AddressRec) : String :=
  md5hex (hashKey addr)

/-! ## Address candidate classifier (src/app.py lines 350 to 373) -/

/-- Regex word boundary on the left of position i: start of string or a
non-word character before i. Valid when the pattern character at i is a
word character, which holds for every pattern below. -/
def boundaryL (l : List Char) (i : Nat) : Bool :=
  i = 0 || !(isWordChar (l.getD (i - 1) ' '))

/-- Regex word boundary on the right of position j, when the character
before j in the pattern is a word character: end of string or a non-word
character at j. -/
def boundaryR (l : List Char) (j : Nat) : Bool :=
  l.length ≤ j || !(isWordChar (l.getD j ' '))

/-- n decimal digits starting at position i. -/
def digitsAt (l : List Char) (i n : Nat) : Bool :=
  i + n ≤ l.length && (List.range n).all (fun k => (l.getD (i + k) ' ').isDigit)

/-- n ASCII letters starting at position i (the A-to-Z class under
re. IGNORECASE). -/
def lettersAt (l : List Char) (i n : Nat) : Bool :=
  i + n ≤ l.length && (List.range n).all (fun k => (l.getD (i + k) ' ').isAlpha)

/-- n whitespace characters starting at position i. -/
def spacesAt (l : List Char) (i n : Nat) : Bool :=
  i + n ≤ l.length && (List.range n).all (fun k => isPySpace (l.getD (i + k) ' '))

/-- A match of the US postal pattern at position i: word boundary, five
digits, then either a boundary, or a hyphen, four digits and a boundary,
exactly the backtracking alternatives of the greedy optional group. -/
def usZipAt (l : List Char) (i : Nat) : Bool :=
  boundaryL l i && digitsAt l i 5 &&
    (boundaryR l (i + 5) ||
      (l.getD (i + 5) ' ' = '-' && digitsAt l (i + 6) 4 && boundaryR l (i + 10)))

/-- bool of re.search for the US postal pattern: a match at some
position. -/
def hasUSZip (l : List Char) : Bool :=
  (List.range (l.length + 1)).any (usZipAt l)

/-- A match of the UK postal pattern at position i under re.IGNORECASE:
word boundary, one or two letters, a digit, an optional alphanumeric, any
run of whitespace, a digit, two letters, word boundary. The bounded
existentials enumerate every backtracking choice. -/
def ukZipAt (l : List Char) (i : Nat) : Bool :=
  boundaryL l i &&
  [1, 2].any (fun a =>
    lettersAt l i a && (l.getD (i + a) ' ').isDigit &&
    [0, 1].any (fun o =>
      (o = 0 || (l.getD (i + a + 1) ' ').isAlphanum) &&
      (List.range (l.length + 1)).any (fun n =>
        spacesAt l (i + a + 1 + o) n &&
        (l.getD (i + a + 1 + o + n) ' ').isDigit &&
        lettersAt l (i + a + 1 + o + n + 1) 2 &&
        boundaryR l (i + a + 1 + o + n + 3))))

/-- bool of re.search for the UK postal pattern. -/
def hasUKZip (l : List Char) : Bool :=
  (List.range (l.length + 1)).any (ukZipAt l)

/-- The alternatives of STREET_KEYWORDS at src/app.py line 93, in order.
Two of them end in a literal dot. -/
def STREET_KEYWORD_ALTS : List String :=
  ["STREET", "ST.", "ROAD", "RD.", "AVE", "AVENUE", "BOULEVARD", "BLVD", "DR", "DRIVE",
   "LANE", "LN", "WAY", "TERRACE", "PLAZA", "PL", "COURT", "CT"]

/-- Case-insensitive match of a literal pattern at position i. -/
def ciMatchAt (pat l : List Char) (i : Nat) : Bool :=
  i + pat.length ≤ l.length &&
    (List.range pat.length).all (fun k => Char.toUpper (l.getD (i + k) ' ') == pat.getD k ' ')

/-- A match of some STREET_KEYWORDS alternative at position i with the
surrounding word boundaries. For the alternatives ending in a dot (a
non-word character) the trailing boundary requires the next character to
exist and be a word character; for the others it is the usual boundary
after a word character. -/
def streetKwAt (l : List Char) (i : Nat) : Bool :=
  STREET_KEYWORD_ALTS.any (fun alt =>
    ciMatchAt alt.data l i && boundaryL l i &&
      (if alt.data.getLast? = some '.' then
        decide (i + alt.length < l.length) && isWordChar (l.getD (i + alt.length) ' ')
      else boundaryR l (i + alt.length)))

/-- bool of re.search for STREET_KEYWORDS. -/
def hasStreetKw (l : List Char) : Bool :=
  (List.range (l.length + 1)).any (streetKwAt l)

/-- is_strict_address_candidate from src/app.py lines 350 to 373. The
length tests are applied to the stripped text. -/
def is_strict_address_candidate (text : String) : Bool :=
  if text = "" then false else
  if (pyStrip text).length < 10 then false else
  if ((pyStrip text).data.any Char.isDigit && hasStreetKw (pyStrip text).data)
      || (hasUSZip (pyStrip text).data || hasUKZip (pyStrip text).data) then
    if (pyStrip text).length > 300 then false
    else if (pyStrip text).data.contains '@' || pyStartsWith (pyLower (pyStrip text)) "news"
        || pyStartsWith (pyLower (pyStrip text)) "data" then false
    else true
  else false

/-! ## Page discovery (src/app.py lines 84 to 151) -/

/-- ensure_scheme from src/app.py lines 84 to 90. -/
def ensure_scheme (url : String) : String :=
  if url = "" then "" else
  let u := pyStrip url
  if pyStartsWith u "http" then u
  else "https://" ++ String.mk (u.data.dropWhile (fun c => c = '/'))

/-- Python rstrip of slashes, also the effect of re.sub removing a
trailing run of slashes at src/app.py line 130. -/
def rstripSlashes (s : String) : String :=
  String.mk ((s.data.reverse.dropWhile (fun c => c = '/')).reverse)

/-- PREFERRED_PAGE_KEYWORDS from src/app.py lines 100 to 104. -/
def PREFERRED_PAGE_KEYWORDS : List String :=
  ["contact", "contact-us", "contactus", "about", "about-us", "aboutus",
   "head", "head-office", "headquarters", "hq", "office", "offices",
   "locations", "location", "plant", "plants", "manufacturing", "factory", "site", "facility"]

/-- CANDIDATE_PATHS from src/app.py lines 106 to 110. -/
def CANDIDATE_PATHS : List String :=
  ["/contact", "/contact-us", "/about", "/about-us", "/locations",
   "/location", "/offices", "/head-office", "/headquarters", "/hq",
   "/plants", "/manufacturing", "/factory", "/site", "/facility"]

/-- Whether a page URL contains some preferred keyword, lowercased, as in
the reorder phase of find_pages_from_home. -/
def isPreferredPage (p : String) : Bool :=
  PREFERRED_PAGE_KEYWORDS.any (fun k => containsSub k (pyLower p))

/-- What the source reads out of a successfully fetched and parsed page:
the text of the first address tag if any, the page text, and the href
values of its links. -/
structure Page where
  addressTag : Option String
  text : String
  links : List String

/-- Python len of set(pages): the number of distinct elements. -/
def setSize (l : List String) : Nat :=
  (l.foldl (fun acc x => if x ∈ acc then acc else x :: acc) []).length

/-- The homepage link loop of src/app.py lines 119 to 126: append
site-relative links as absolute URLs and absolute links as they are, and
break once the set of pages reaches max_pages. -/
def collectHomeLinks (home : String) (maxPages : Nat) : List String → List String → List String
  | pages, [] => pages
  | pages, a :: rest =>
    let href := pyStrip a
    let pages2 :=
      if pyStartsWith href "/" then pages ++ [rstripSlashes home ++ href]
      else if pyStartsWith href "http" then pages ++ [href]
      else pages
    if maxPages ≤ setSize pages2 then pages2 else collectHomeLinks home maxPages pages2 rest

/-- The raw discovery list of find_pages_from_home before reordering: the
homepage, the links collected from it when the fetch succeeds, then the
candidate paths appended to the trimmed base URL. -/
def discovered_pages (fetch : String → Option Page) (home_url : String) (max_pages : Nat) :
    List String :=
  let home := ensure_scheme home_url
  let pages1 :=
    match fetch home with
    | none => [home]
    | some pg => collectHomeLinks home max_pages [home] pg.links
  pages1 ++ CANDIDATE_PATHS.map (fun p => rstripSlashes home ++ p)

/-- One step of the ordered-with-seen dedup loops of src/app.py lines 136
to 149: the first component is the ordered output, the second the seen
set. -/
def dedupStep (acc : List String × List String) (p : String) : List String × List String :=
  if p ∈ acc.2 then acc else (acc.1 ++ [p], p :: acc.2)

/-- find_pages_from_home from src/app.py lines 113 to 151: discover,
put pages whose URL contains a preferred keyword first, then the rest in
discovery order, deduplicating throughout, and truncate to max_pages. -/
def find_pages_from_home (fetch : String → Option Page) (home_url : String) (max_pages : Nat) :
    List String :=
  let pages := discovered_pages fetch home_url max_pages
  let phase1 := pages.foldl (fun acc p => if isPreferredPage p then dedupStep acc p else acc)
    ([], [])
  let phase2 := pages.foldl dedupStep phase1
  phase2.1.take max_pages

/-! ## Site extractor (src/app.py lines 154 to 255) -/

/-- EXCLUDE_SALES_KEYWORDS from src/app.py lines 94 to 97. -/
def EXCLUDE_SALES_KEYWORDS : List String :=
  ["store", "stores", "location", "locations", "dealer", "retail",
   "shop", "franchise", "outlet", "distributor", "sales"]

/-- Whether an already lowercased text contains a sales keyword. -/
def hasSalesKeyword (lowText : String) : Bool :=
  EXCLUDE_SALES_KEYWORDS.any (fun k => containsSub k lowText)

/-- Python str.splitlines restricted to newline terminators: split at
newlines, with no trailing empty piece for a trailing newline and the
empty list for the empty string. -/
def splitLinesList : List Char → List (List Char)
  | [] => []
  | c :: cs =>
    if c = '\n' then [] :: splitLinesList cs
    else
      match splitLinesList cs with
      | [] => [[c]]
      | w :: ws => (c :: w) :: ws

/-- Python str.splitlines on strings. -/
def splitLines (s : String) : List String :=
  (splitLinesList s.data).map String.mk

/-- Worker for re.sub deleting every http or https scheme occurrence,
with fuel as elsewhere. The https alternative is tried first because the
s is greedy. -/
def stripSchemesFuel : Nat → List Char → List Char
  | 0, l => l
  | _ + 1, [] => []
  | fuel + 1, c :: cs =>
    if "https://".data.isPrefixOf (c :: cs) then stripSchemesFuel fuel ((c :: cs).drop 8)
    else if "http://".data.isPrefixOf (c :: cs) then stripSchemesFuel fuel ((c :: cs).drop 7)
    else c :: stripSchemesFuel fuel cs

/-- The domain computation of src/app.py line 162: delete the scheme and
keep everything before the first slash. -/
def domainOf (website : String) : String :=
  String.mk ((stripSchemesFuel (website.length + 1) website.data).takeWhile (fun c => c ≠ '/'))

/-- The line scan used on second-hop and search-result pages at src/app.py
lines 214 to 219 and 244 to 249: the first raw line that the classifier
accepts and that the sales filter does not reject. -/
def scanInner (hq : Bool) (text : String) : Option String :=
  (splitLines text).find? (fun line =>
    is_strict_address_candidate line && !(hq && hasSalesKeyword (pyLower line)))

/-- The line scan of the primary pages at src/app.py lines 188 to 197:
skip lines shorter than ten characters, strip the line, and take the
first stripped candidate that the classifier accepts and the sales filter
does not reject. -/
def findStrictLine (hq : Bool) (text : String) : Option String :=
  (splitLines text).find? (fun line =>
    !(decide (line.length < 10)) && is_strict_address_candidate (pyStrip line)
      && !(hq && hasSalesKeyword (pyLower (pyStrip line))))

/-- The internal-link collection of src/app.py lines 199 to 205. -/
def collectInternal (domain : String) : List String → List String
  | [] => []
  | a :: rest =>
    let href := pyStrip a
    if pyStartsWith href "/" then ensure_scheme (domain ++ href) :: collectInternal domain rest
    else if pyStartsWith href "http" && containsSub domain href then
      href :: collectInternal domain rest
    else collectInternal domain rest

/-- The one-hop crawl over internal links at src/app.py lines 207 to 221,
threading the visited set; returns the found pair if any together with
the updated visited set. -/
def innerLoop (ud : String → String) (fetch : String → Option Page) (hq : Bool) :
    List String → List String → Option (String × String) × List String
  | visited, [] => (none, visited)
  | visited, link :: rest =>
    if link ∈ visited then innerLoop ud fetch hq visited rest
    else
      let v2 := link :: visited
      match fetch link with
      | none => innerLoop ud fetch hq v2 rest
      | some pg =>
        match scanInner hq pg.text with
        | some line => (some (normalize_text ud line, link), v2)
        | none => innerLoop ud fetch hq v2 rest

/-- The main page loop of extract_address_site, src/app.py lines 167 to
223: for each unvisited page, a failed fetch is skipped; otherwise try
the address tag (skipping sales text when preferring headquarters, which
falls through to the line scan), then the strict line scan, then one hop
of internal links. -/
def crawlPages (ud : String → String) (fetch : String → Option Page) (hq : Bool)
    (domain : String) : List String → List String → Option (String × String)
  | _, [] => none
  | visited, p :: rest =>
    if p ∈ visited then crawlPages ud fetch hq domain visited rest
    else
      let v1 := p :: visited
      match fetch (ensure_scheme p) with
      | none => crawlPages ud fetch hq domain v1 rest
      | some pg =>
        let tagHit :=
          match pg.addressTag with
          | some txt =>
            if txt ≠ "" && !(hq && hasSalesKeyword (pyLower txt)) then
              some (normalize_text ud txt, ensure_scheme p)
            else none
          | none => none
        match tagHit with
        | some res => some res
        | none =>
          match findStrictLine hq pg.text with
          | some line => some (normalize_text ud (pyStrip line), ensure_scheme p)
          | none =>
            match innerLoop ud fetch hq v1 ((collectInternal domain pg.links).take 6) with
            | (some res, _) => some res
            | (none, v2) => crawlPages ud fetch hq domain v2 rest

/-- The search-result link collection of src/app.py lines 234 to 239:
keep absolute links mentioning the domain and break at six. -/
def ddgCollect (domain : String) : List String → List String → List String
  | links, [] => links
  | links, href :: rest =>
    let links2 :=
      if pyStartsWith href "http" && containsSub domain href then links ++ [href] else links
    if 6 ≤ links2.length then links2 else ddgCollect domain links2 rest

/-- The loop over search-result links at src/app.py lines 240 to 251. -/
def fallbackLoop (ud : String → String) (fetch : String → Option Page) (hq : Bool) :
    List String → Option (String × String)
  | [] => none
  | link :: rest =>
    match fetch link with
    | none => fallbackLoop ud fetch hq rest
    | some pg =>
      match scanInner hq pg.text with
      | some line => some (normalize_text ud line, link)
      | none => fallbackLoop ud fetch hq rest

/-- The broadened search terms of src/app.py line 229. -/
def QUERY_TERMS : String :=
  "contact OR contact us OR locations OR headquarters OR head office OR plant OR manufacturing OR office"

/-- extract_address_site from src/app.py lines 154 to 255. fetch models
requests.get composed with HTML parsing; fetchSearch models the
duckduckgo search post for a query; none models any raised and caught
exception. Every failure path falls through to the empty result. -/
def extract_address_site (ud : String → String) (fetch : String → Option Page)
    (fetchSearch : String → Option Page) (website : String) (prefer_hq : Bool) :
    String × String :=
  if website = "" then ("", "") else
  let domain := domainOf website
  let pages := find_pages_from_home fetch website 12
  match crawlPages ud fetch prefer_hq domain [] pages with
  | some res => res
  | none =>
    match fetchSearch ("site:" ++ domain ++ " " ++ QUERY_TERMS) with
    | none => ("", "")
    | some sp =>
      match fallbackLoop ud fetch prefer_hq (ddgCollect domain [] sp.links) with
      | some res => res
      | none => ("", "")

/-! ## Enrichment clients -/

/-- The address object of the first Nominatim result, as read by
enrich_with_nominatim; absent keys are none. -/
structure NomAddr where
  city : Option String
  state : Option String
  postcode : Option String
  country : Option String

/-- Python truthiness of d.get(key) for a string-valued optional field:
present and non-empty. -/
def optTruthy (o : Option String) : Bool :=
  !(o.getD "" == "")

/-- Python str.strip with a comma argument: drop commas on both ends. -/
def stripCommasList (l : List Char) : List Char :=
  ((l.dropWhile (fun c => c = ',')).reverse.dropWhile (fun c => c = ',')).reverse

/-- enrich_with_nominatim from src/app.py lines 412 to 434. fetch models
the Nominatim query returning the parsed result list; none models a
raised and caught exception. Each of city, state, pin code and country is
filled from the response only when the stored field is empty. -/
def enrich_with_nominatim (fetch : String → Option (List NomAddr)) (record : AddressRec) :
    AddressRec :=
  let q0 := record.street1 ++ ", " ++ record.city ++ ", " ++ record.state ++ ", " ++ record.country
  let q := String.mk (stripCommasList (pyStrip q0).data)
  if q = "" then record else
  match fetch q with
  | none => record
  | some [] => record
  | some (addr :: _) =>
    let r1 :=
      if record.city = "" ∧ optTruthy addr.city then
        ⟨record.street1, record.street2, pyUpper (addr.city.getD ""), record.state,
         record.pin, record.country⟩
      else record
    let r2 :=
      if r1.state = "" ∧ optTruthy addr.state then
        ⟨r1.street1, r1.street2, r1.city, pyUpper (addr.state.getD ""), r1.pin, r1.country⟩
      else r1
    let r3 :=
      if r2.pin = "" ∧ optTruthy addr.postcode then
        ⟨r2.street1, r2.street2, r2.city, r2.state, addr.postcode.getD "", r2.country⟩
      else r2
    let r4 :=
      if r3.country = "" ∧ optTruthy addr.country then
        ⟨r3.street1, r3.street2, r3.city, r3.state, r3.pin, pyUpper (addr.country.getD "")⟩
      else r3
    r4

/-- One address component of a Google geocoding result, as read by
enrich_with_google_maps in src/api.py. -/
structure GComp where
  types : List String
  long_name : String

/-- The fields of the Google geocoding response that the source reads:
the status and, per result, the address components. -/
structure GResp where
  status : String
  results : List (List GComp)

/-- us_states from src/api.py lines 40 to 43. -/
def us_states : List (String × String) :=
  [("ALABAMA", "AL"), ("ALASKA", "AK"), ("ARIZONA", "AZ"), ("CALIFORNIA", "CA"),
   ("NEW YORK", "NY"), ("TEXAS", "TX"), ("FLORIDA", "FL"), ("ILLINOIS", "IL")]

/-- standard_countries from src/api.py lines 31 to 38. -/
def standard_countries : List (String × String) :=
  [("USA", "UNITED STATES OF AMERICA"), ("US", "UNITED STATES OF AMERICA"),
   ("UNITED STATES", "UNITED STATES OF AMERICA"),
   ("UK", "UNITED KINGDOM OF GREAT BRITAIN AND NORTHERN IRELAND"),
   ("UNITED KINGDOM", "UNITED KINGDOM OF GREAT BRITAIN AND NORTHERN IRELAND"),
   ("CHINA", "CHINA"), ("RUSSIA", "RUSSIAN FEDERATION"),
   ("SOUTH KOREA", "KOREA (REPUBLIC OF)"), ("KOREA", "KOREA (REPUBLIC OF)")]

/-- The body of the component loop of enrich_with_google_maps, src/api.py
lines 102 to 111: each matching component type overwrites the stored
field unconditionally. -/
def applyGComp (address : AddressRec) (comp : GComp) : AddressRec :=
  let a1 :=
    if "locality" ∈ comp.types then
      ⟨address.street1, address.street2, pyUpper comp.long_name, address.state,
       address.pin, address.country⟩
    else address
  let a2 :=
    if "administrative_area_level_1" ∈ comp.types then
      let sn := pyUpper comp.long_name
      ⟨a1.street1, a1.street2, a1.city, (us_states.lookup sn).getD sn, a1.pin, a1.country⟩
    else a1
  let a3 :=
    if "country" ∈ comp.types then
      let cn := pyUpper comp.long_name
      ⟨a2.street1, a2.street2, a2.city, a2.state, a2.pin, (standard_countries.lookup cn).getD cn⟩
    else a2
  let a4 :=
    if "postal_code" ∈ comp.types then
      ⟨a3.street1, a3.street2, a3.city, a3.state, comp.long_name, a3.country⟩
    else a3
  a4

/-- enrich_with_google_maps from src/api.py lines 94 to 114. fetch models
the geocoding request for the built query; none models a raised and
caught exception, which also covers the empty results list read at index
zero. -/
def enrich_with_google_maps (fetch : String → Option GResp) (address : AddressRec) : AddressRec :=
  let query := address.street1 ++ " " ++ address.city ++ " " ++ address.state ++ " "
    ++ address.country
  match fetch query with
  | none => address
  | some resp =>
    if resp.status = "OK" then
      match resp.results with
      | [] => address
      | comps :: _ => comps.foldl applyGComp address
    else address

/-! ## Deduplication registry (src/app.py lines 1004 to 1011) -/

/-- Python string slicing by a leading count of code points, as in the
h up-to-eight expression building the master record id. -/
def strTake (s : String) (n : Nat) : String :=
  String.mk (s.data.take n)

/-- The registry loop: for each record, look its fingerprint up in seen;
a hit yields the duplicate flag YES and the stored master id; a miss
yields NO, a master id equal to the first eight characters of the
fingerprint, and registers it. Returns the (flag, master id) pair per
record in order. -/
def dedupGo : List AddressRec → List (String × String) → List (String × String)
  | [], _ => []
  | r :: rest, seen =>
    let h := hash_address r
    match List.lookup h seen with
    | some mid => ("YES", mid) :: dedupGo rest seen
    | none => ("NO", strTake h 8) :: dedupGo rest ((h, strTake h 8) :: seen)

/-- One full run of the registry starting empty, as at src/app.py line
986. -/
def dedupRun (recs : List AddressRec) : List (String × String) :=
  dedupGo recs []

/-! ## Concrete data used by witnesses and counterexamples -/

/-- A concrete function satisfying the unidecode contract assumed by the
theorems: ASCII output, identity on ASCII input. Used only to instantiate
witnesses. -/
def udModel (s : String) : String :=
  String.mk (s.data.filter (fun c => c.toNat ≤ 127))

/-- A 301-character string: a valid street line padded with trailing
spaces. -/
def str301 : String :=
  "123 MAIN STREET" ++ String.mk (List.replicate 286 ' ')

/-- A record whose street line contains the fingerprint separator. -/
def recPipeA : AddressRec := ⟨"A|", "", "", "", "", ""⟩

/-- A record with different fields building the same fingerprint key as
recPipeA. -/
def recPipeB : AddressRec := ⟨"A", "", "|", "", "", ""⟩

/-- A parsed record with a city already extracted. -/
def recWithCity : AddressRec := ⟨"1 X ROAD", "", "Oldcity", "", "", ""⟩

/-- A geocoding response carrying a locality component. -/
def gRespOverwrite : GResp := ⟨"OK", [[⟨["locality"], "Newcity"⟩]]⟩

/-- A record with only the street line populated. -/
def recOnlyStreet : AddressRec := ⟨"5 OAK ROAD", "", "", "", "", ""⟩

/-- The parser input of the round-trip property in the specification. -/
def c1Input : String := "123 Main Street, Suite 4, Springfield, IL 62704, USA"

/-- What standardize_address_dict actually returns on c1Input. -/
def c1Actual : AddressRec :=
  ⟨"123 MAIN STREET SUITE 4 SPRINGFIELD IL 62704 USA", "", "", "", "", ""⟩

/-- Proof helper equivalent to the dedupStep folds: keep the elements not
yet seen, first occurrences win. -/
def dedupList (seen : List String) : List String → List String
  | [] => []
  | p :: ps => if p ∈ seen then dedupList seen ps else p :: dedupList (p :: seen) ps

/-- The five fields that hash_address fingerprints. -/
def fingerprintFields (addr : AddressRec) : String × String × String × String × String :=
  (addr.street1, addr.city, addr.state, addr.pin, addr.country)

/-- No fingerprint field contains the vertical-bar separator that
hash_address joins with. -/
def pipeFree (addr : AddressRec) : Prop :=
  '|' ∉ addr.street1.data ∧ '|' ∉ addr.city.data ∧ '|' ∉ addr.state.data
    ∧ '|' ∉ addr.pin.data ∧ '|' ∉ addr.country.data

instance (addr : AddressRec) : Decidable (pipeFree addr) := by
  unfold pipeFree; infer_instance

/-! ## Helper lemmas -/

theorem udModel_ascii (s : String) : allAscii (udModel s) = true := by
  simp only [udModel, allAscii, List.all_eq_true]
  intro c hc
  have := List.mem_filter.mp hc
  simpa using this.2

theorem udModel_id (s : String) (h : allAscii s = true) : udModel s = s := by
  unfold udModel
  have : s.data.filter (fun c => c.toNat ≤ 127) = s.data := by
    rw [List.filter_eq_self]
    intro a ha
    simp only [allAscii, List.all_eq_true] at h
    exact h a ha
  rw [this]

theorem pyStripList_length_le (l : List Char) : (pyStripList l).length ≤ l.length := by
  unfold pyStripList
  have h1 := (List.dropWhile_suffix (l := l) isPySpace).sublist.length_le
  have h2 := (List.dropWhile_suffix (l := (l.dropWhile isPySpace).reverse) isPySpace).sublist.length_le
  simp only [List.length_reverse] at h2 ⊢
  omega

theorem sep_append_inj (a : List Char) {b x y : List Char}
    (ha : '|' ∉ a) (hb : '|' ∉ b)
    (h : a ++ '|' :: x = b ++ '|' :: y) : a = b ∧ x = y := by
  induction a generalizing b with
  | nil =>
    cases b with
    | nil => simpa using h
    | cons d ds =>
      simp only [List.nil_append, List.cons_append, List.cons.injEq] at h
      exact absurd (h.1 ▸ List.mem_cons_self d ds) hb
  | cons e es ih =>
    cases b with
    | nil =>
      simp only [List.cons_append, List.nil_append, List.cons.injEq] at h
      exact absurd (h.1.symm ▸ List.mem_cons_self e es) ha
    | cons d ds =>
      simp only [List.cons_append, List.cons.injEq] at h
      obtain ⟨he, hx⟩ := ih (fun hm => ha (List.mem_cons_of_mem e hm))
        (fun hm => hb (List.mem_cons_of_mem d hm)) h.2
      exact ⟨by rw [h.1, he], hx⟩

/-! ## Claim C5: confidence scorer -/

/-- C5: calculate_confidence returns a value in the range zero to one
hundred equal to 40 for a non-empty street line 1 plus 15 for each
non-empty field among city, state, pin code and country; in particular
a record with only street line 1 scores 40, a full record 100, an empty
record 0. -/
theorem c5_confidence_additive (addr : AddressRec) :
    calculate_confidence addr =
      (if addr.street1 ≠ "" then 40 else 0) + (if addr.city ≠ "" then 15 else 0)
      + (if addr.state ≠ "" then 15 else 0) + (if addr.pin ≠ "" then 15 else 0)
      + (if addr.country ≠ "" then 15 else 0)
    ∧ calculate_confidence addr ≤ 100 := by
  simp only [calculate_confidence]
  split <;> split <;> split <;> split <;> split <;> simp

/-! ## Claim C1: the parser on the round-trip input -/

/-- C1 (code bug evidence): on the input of the round-trip property,
standardize_address_dict returns the entire normalized string as street
line 1 and leaves every other field empty, because normalize_text has
already deleted the commas that the split at line 391 looks for, so the
claimed field assignments never happen. The hypothesis is the unidecode
contract on ASCII input. -/
theorem c1_parser_no_split (ud : String → String)
    (h : ∀ s, allAscii s = true → ud s = s) :
    standardize_address_dict ud c1Input = c1Actual := by
  have h1 : ud c1Input = c1Input := h _ (by decide)
  unfold standardize_address_dict normalize_text
  rw [h1]
  decide

theorem c1_parser_no_split_witness :
    standardize_address_dict udModel c1Input = c1Actual :=
  c1_parser_no_split udModel (fun s hs => udModel_id s hs)

/-! ## Claim C3: fingerprint distinctness -/

/-- C3 (counterexample): two records that differ in street line 1 and in
city nevertheless hash to the same fingerprint, because the fields are
joined with a vertical bar and a field containing that separator shifts
the boundaries. -/
theorem c3_pipe_collision :
    hash_address recPipeA = hash_address recPipeB
    ∧ fingerprintFields recPipeA ≠ fingerprintFields recPipeB :=
  ⟨rfl, by decide⟩

/-- C3 (amended): when no fingerprint field contains the vertical-bar
separator, records differing in some fingerprint field produce distinct
key strings, hence distinct fingerprints whenever MD5 itself does not
collide on them. -/
theorem c3_distinct_keys (r1 r2 : AddressRec) (h1 : pipeFree r1) (h2 : pipeFree r2)
    (hne : fingerprintFields r1 ≠ fingerprintFields r2) :
    hashKey r1 ≠ hashKey r2 := by
  intro heq
  apply hne
  have hd := congrArg String.data heq
  simp only [hashKey, String.data_append, List.append_assoc, List.singleton_append] at hd
  obtain ⟨e1, rest1⟩ := sep_append_inj _ h1.1 h2.1 hd
  obtain ⟨e2, rest2⟩ := sep_append_inj _ h1.2.1 h2.2.1 rest1
  obtain ⟨e3, rest3⟩ := sep_append_inj _ h1.2.2.1 h2.2.2.1 rest2
  obtain ⟨e4, e5⟩ := sep_append_inj _ h1.2.2.2.1 h2.2.2.2.1 rest3
  simp only [fingerprintFields, Prod.mk.injEq]
  exact ⟨String.ext e1, String.ext e2, String.ext e3, String.ext e4, String.ext e5⟩

theorem c3_distinct_keys_witness :
    hashKey recOnlyStreet ≠ hashKey emptyRec :=
  c3_distinct_keys recOnlyStreet emptyRec (by decide) (by decide) (by decide)

/-! ## Claim C4: classifier length bounds -/

set_option maxRecDepth 4000 in
/-- C4 (counterexample): a 301-character string is accepted by
is_strict_address_candidate, because the length tests are applied to the
stripped text and trailing whitespace does not count. -/
theorem c4_accepts_301 :
    is_strict_address_candidate str301 = true ∧ str301.length = 301 := by
  constructor
  · decide
  · decide

/-- C4 (amended): whenever the classifier accepts a string, the stripped
length is between 10 and 300 inclusive, and the raw length is at least
10; the 300-character upper bound holds for the stripped text only. -/
theorem c4_stripped_length_bounds (s : String)
    (h : is_strict_address_candidate s = true) :
    10 ≤ (pyStrip s).length ∧ (pyStrip s).length ≤ 300 ∧ 10 ≤ s.length := by
  unfold is_strict_address_candidate at h
  split at h
  · exact absurd h (by simp)
  · split at h
    · exact absurd h (by simp)
    · split at h
      · split at h
        · exact absurd h (by simp)
        · split at h
          · exact absurd h (by simp)
          · rename_i hraw hlen _ hlong _
            have hle : (pyStrip s).length ≤ s.length := by
              have h1 := pyStripList_length_le s.data
              simp only [pyStrip, String.length] at h1 ⊢
              exact h1
            omega
      · exact absurd h (by simp)

theorem c4_stripped_length_bounds_witness :
    10 ≤ (pyStrip "123 MAIN STREET").length
    ∧ (pyStrip "123 MAIN STREET").length ≤ 300 ∧ 10 ≤ ("123 MAIN STREET" : String).length :=
  c4_stripped_length_bounds "123 MAIN STREET" (by decide)

/-! ## Claim C2: enrichment frame property -/

/-- C2 (counterexample): enrich_with_google_maps overwrites the city
field even though it was non-empty in the input, whenever the response
carries a locality component; it does not only fill gaps. -/
theorem c2_google_overwrites :
    recWithCity.city = "Oldcity"
    ∧ (enrich_with_google_maps (fun _ => some gRespOverwrite) recWithCity).city = "NEWCITY" := by
  constructor
  · decide
  · decide

/-- C2 (amended): enrich_with_nominatim never changes the street lines
and never overwrites a non-empty city, state, pin code or country; it
only fills those four fields when they are empty. The same does not hold
of enrich_with_google_maps. -/
theorem c2_nominatim_fills_only_empty (fetch : String → Option (List NomAddr))
    (record : AddressRec) :
    (enrich_with_nominatim fetch record).street1 = record.street1
    ∧ (enrich_with_nominatim fetch record).street2 = record.street2
    ∧ (record.city ≠ "" → (enrich_with_nominatim fetch record).city = record.city)
    ∧ (record.state ≠ "" → (enrich_with_nominatim fetch record).state = record.state)
    ∧ (record.pin ≠ "" → (enrich_with_nominatim fetch record).pin = record.pin)
    ∧ (record.country ≠ "" → (enrich_with_nominatim fetch record).country = record.country) := by
  unfold enrich_with_nominatim
  dsimp only
  split
  · simp
  · split
    · simp
    · simp
    · refine ⟨?_, ?_, ?_, ?_, ?_, ?_⟩ <;> (try intro hne) <;> split_ifs <;> simp_all

theorem c2_nominatim_witness :
    (enrich_with_nominatim (fun _ => some [⟨some "X", some "Y", some "Z", some "W"⟩])
      recWithCity).city = recWithCity.city :=
  (c2_nominatim_fills_only_empty (fun _ => some [⟨some "X", some "Y", some "Z", some "W"⟩])
    recWithCity).2.2.1 (by decide)

/-! ## Claim C7: wholly unreachable website -/

/-- C7: when every page fetch and the search fallback fail,
extract_address_site returns the empty pair; the embedding is a total
function, every exception of the source being caught and modelled by the
none branches taken here. -/
theorem c7_unreachable_empty (ud : String → String) (fetch : String → Option Page)
    (fetchSearch : String → Option Page) (website : String) (prefer_hq : Bool)
    (hget : ∀ u, fetch u = none) (hpost : ∀ q, fetchSearch q = none) :
    extract_address_site ud fetch fetchSearch website prefer_hq = ("", "") := by
  have hcrawl : ∀ pages visited,
      crawlPages ud fetch prefer_hq (domainOf website) visited pages = none := by
    intro pages
    induction pages with
    | nil => intro visited; rfl
    | cons p rest ih =>
      intro visited
      unfold crawlPages
      rw [hget]
      split
      · exact ih visited
      · exact ih (p :: visited)
  unfold extract_address_site
  dsimp only
  split
  · rfl
  · rw [hcrawl, hpost]

theorem c7_unreachable_empty_witness :
    extract_address_site udModel (fun _ => none) (fun _ => none) "example.com" true = ("", "") :=
  c7_unreachable_empty udModel (fun _ => none) (fun _ => none) "example.com" true
    (fun _ => rfl) (fun _ => rfl)

/-! ## Claim C6 counterexample -/

set_option maxRecDepth 100000 in
/-- C6 (counterexample): in the run consisting of recPipeA then two
copies of recPipeB, the second and third records have identical
fingerprint fields and the second is the first record of the run with
those fields, yet it is flagged YES, because recPipeA, whose fields
differ, already registered the same fingerprint. -/
theorem c6_first_flagged_yes :
    fingerprintFields recPipeB ≠ fingerprintFields recPipeA
    ∧ (dedupRun [recPipeA, recPipeB, recPipeB]).map Prod.fst = ["NO", "YES", "YES"] := by
  constructor
  · decide
  · decide

/-! ## Character and whitespace lemmas for the normalizer -/

theorem charOfNat_toNat (n : Nat) (h : n < 128) : (Char.ofNat n).toNat = n := by
  have hv : n.isValidChar := Or.inl (by omega)
  simp only [Char.ofNat, hv, dite_true, Char.ofNatAux, Char.toNat, UInt32.toNat]
  rfl

theorem toUpper_toNat_le (c : Char) (h : c.toNat ≤ 127) : (Char.toUpper c).toNat ≤ 127 := by
  simp only [Char.toUpper]
  split
  · rename_i hc
    rw [charOfNat_toNat (c.toNat - 32) (by omega)]
    omega
  · exact h

theorem toUpper_toUpper (c : Char) : (Char.toUpper c).toUpper = Char.toUpper c := by
  by_cases hc : c.toNat ≥ 97 ∧ c.toNat ≤ 122
  · have h1 : Char.toUpper c = Char.ofNat (c.toNat - 32) := by
      simp only [Char.toUpper]
      rw [if_pos hc]
    rw [h1]
    simp only [Char.toUpper]
    rw [if_neg]
    rw [charOfNat_toNat (c.toNat - 32) (by omega)]
    omega
  · have h1 : Char.toUpper c = c := by
      simp only [Char.toUpper]
      rw [if_neg hc]
    rw [h1, h1]

theorem map_id_of_fixed {l : List Char} {f : Char → Char} (h : ∀ c ∈ l, f c = c) :
    l.map f = l := by
  induction l with
  | nil => rfl
  | cons d ds ih =>
    rw [List.map_cons, h d (List.mem_cons_self d ds),
      ih (fun c hc => h c (List.mem_cons_of_mem d hc))]

theorem collapseAux_nil (b : Bool) : collapseAux b [] = [] := rfl

theorem collapseAux_cons_space_true (d : Char) (ds : List Char) (hd : isPySpace d = true) :
    collapseAux true (d :: ds) = collapseAux true ds := by
  simp [collapseAux, hd]

theorem collapseAux_cons_space_false (d : Char) (ds : List Char) (hd : isPySpace d = true) :
    collapseAux false (d :: ds) = ' ' :: collapseAux true ds := by
  simp [collapseAux, hd]

theorem collapseAux_cons_nonspace (b : Bool) (d : Char) (ds : List Char)
    (hd : isPySpace d = false) :
    collapseAux b (d :: ds) = d :: collapseAux false ds := by
  simp [collapseAux, hd]

theorem mem_collapseAux (l : List Char) :
    ∀ (b : Bool) (c : Char), c ∈ collapseAux b l →
      c = ' ' ∨ (c ∈ l ∧ isPySpace c = false) := by
  induction l with
  | nil =>
    intro b c h
    rw [collapseAux_nil] at h
    exact absurd h (List.not_mem_nil c)
  | cons d ds ih =>
    intro b c h
    cases hd : isPySpace d with
    | true =>
      cases b with
      | true =>
        rw [collapseAux_cons_space_true d ds hd] at h
        rcases ih true c h with h1 | ⟨h2, h3⟩
        · exact Or.inl h1
        · exact Or.inr ⟨List.mem_cons_of_mem d h2, h3⟩
      | false =>
        rw [collapseAux_cons_space_false d ds hd] at h
        rcases List.mem_cons.mp h with h1 | h1
        · exact Or.inl h1
        · rcases ih true c h1 with h2 | ⟨h2, h3⟩
          · exact Or.inl h2
          · exact Or.inr ⟨List.mem_cons_of_mem d h2, h3⟩
    | false =>
      rw [collapseAux_cons_nonspace b d ds hd] at h
      rcases List.mem_cons.mp h with h1 | h1
      · subst h1
        exact Or.inr ⟨List.mem_cons_self c ds, hd⟩
      · rcases ih false c h1 with h2 | ⟨h2, h3⟩
        · exact Or.inl h2
        · exact Or.inr ⟨List.mem_cons_of_mem d h2, h3⟩

theorem collapseAux_head_not_space (l : List Char) :
    ∀ c cs, collapseAux true l = c :: cs → isPySpace c = false := by
  induction l with
  | nil =>
    intro c cs h
    rw [collapseAux_nil] at h
    exact absurd h (by simp)
  | cons d ds ih =>
    intro c cs h
    cases hd : isPySpace d with
    | true =>
      rw [collapseAux_cons_space_true d ds hd] at h
      exact ih c cs h
    | false =>
      rw [collapseAux_cons_nonspace true d ds hd] at h
      rw [← (List.cons.injEq d (collapseAux false ds) c cs).mp h |>.1]
      exact hd

theorem chain_collapseAux (l : List Char) :
    ∀ b, List.Chain' (fun a c => isPySpace a = false ∨ isPySpace c = false) (collapseAux b l) := by
  induction l with
  | nil => intro b; rw [collapseAux_nil]; exact List.chain'_nil
  | cons d ds ih =>
    intro b
    cases hd : isPySpace d with
    | true =>
      cases b with
      | true => rw [collapseAux_cons_space_true d ds hd]; exact ih true
      | false =>
        rw [collapseAux_cons_space_false d ds hd]
        rw [List.chain'_cons']
        refine ⟨?_, ih true⟩
        intro y hy
        right
        cases hcol : collapseAux true ds with
        | nil => rw [hcol] at hy; simp at hy
        | cons e es =>
          rw [hcol] at hy
          simp only [List.head?_cons, Option.mem_def, Option.some.injEq] at hy
          rw [← hy]
          exact collapseAux_head_not_space ds e es hcol
    | false =>
      rw [collapseAux_cons_nonspace b d ds hd]
      rw [List.chain'_cons']
      exact ⟨fun y _ => Or.inl hd, ih false⟩

theorem collapseAux_eq_self (l : List Char) :
    ∀ b, (∀ c ∈ l, isPySpace c = true → c = ' ') →
      List.Chain' (fun a c => isPySpace a = false ∨ isPySpace c = false) l →
      (b = true → ∀ c, l.head? = some c → isPySpace c = false) →
      collapseAux b l = l := by
  induction l with
  | nil => intro b _ _ _; rw [collapseAux_nil]
  | cons d ds ih =>
    intro b hsp hch hb
    cases hd : isPySpace d with
    | true =>
      have hdsp : d = ' ' := hsp d (List.mem_cons_self d ds) hd
      cases b with
      | true => exact absurd hd (by simp [hb rfl d rfl])
      | false =>
        rw [collapseAux_cons_space_false d ds hd]
        have hds : collapseAux true ds = ds := by
          apply ih true (fun c hc h1 => hsp c (List.mem_cons_of_mem d hc) h1) hch.tail
          intro _ c hc
          have h2 := (List.chain'_cons'.mp hch).1 c (by simp [hc])
          rcases h2 with h1 | h1
          · exact absurd hd (by simp [h1])
          · exact h1
        rw [hds, hdsp]
    | false =>
      rw [collapseAux_cons_nonspace b d ds hd]
      rw [ih false (fun c hc h1 => hsp c (List.mem_cons_of_mem d hc) h1) hch.tail
        (fun hfalse => by simp at hfalse)]

theorem dropWhile_head_not (p : Char → Bool) (l : List Char) :
    ∀ c, (l.dropWhile p).head? = some c → p c = false := by
  induction l with
  | nil => intro c h; simp at h
  | cons d ds ih =>
    intro c h
    rw [List.dropWhile_cons] at h
    split at h
    · exact ih c h
    · rename_i hpd
      simp only [List.head?_cons, Option.some.injEq] at h
      rw [← h]
      simpa using hpd

theorem suffix_getLast? {α : Type} {l₁ l₂ : List α} (h : l₁ <:+ l₂) (hne : l₁ ≠ []) :
    l₂.getLast? = l₁.getLast? := by
  obtain ⟨t, rfl⟩ := h
  exact List.getLast?_append_of_ne_nil t hne

theorem pyStripList_head_not_space (l : List Char) :
    ∀ c, (pyStripList l).head? = some c → isPySpace c = false := by
  intro c hc
  unfold pyStripList at hc
  rw [List.head?_reverse] at hc
  have hxne : (l.dropWhile isPySpace).reverse.dropWhile isPySpace ≠ [] := by
    intro h0
    rw [h0] at hc
    simp at hc
  rw [← suffix_getLast? (List.dropWhile_suffix isPySpace) hxne] at hc
  rw [List.getLast?_reverse] at hc
  exact dropWhile_head_not _ _ c hc

theorem pyStripList_getLast_not_space (l : List Char) :
    ∀ c, (pyStripList l).getLast? = some c → isPySpace c = false := by
  intro c hc
  unfold pyStripList at hc
  rw [List.getLast?_reverse] at hc
  exact dropWhile_head_not _ _ c hc

theorem strip_eq_self (l : List Char)
    (hh : ∀ c, l.head? = some c → isPySpace c = false)
    (hl : ∀ c, l.getLast? = some c → isPySpace c = false) :
    pyStripList l = l := by
  unfold pyStripList
  have h1 : l.dropWhile isPySpace = l := by
    cases l with
    | nil => rfl
    | cons d ds =>
      rw [List.dropWhile_cons, if_neg]
      simp [hh d rfl]
  rw [h1]
  have h2 : l.reverse.dropWhile isPySpace = l.reverse := by
    cases hr : l.reverse with
    | nil => rfl
    | cons d ds =>
      rw [List.dropWhile_cons, if_neg]
      have hd : l.getLast? = some d := by
        rw [← List.head?_reverse, hr]
        rfl
      simp [hl d hd]
  rw [h2, List.reverse_reverse]

theorem mem_pyStripList {l : List Char} {c : Char} (h : c ∈ pyStripList l) : c ∈ l := by
  unfold pyStripList at h
  rw [List.mem_reverse] at h
  have h2 := (List.dropWhile_suffix isPySpace).sublist.subset h
  rw [List.mem_reverse] at h2
  exact (List.dropWhile_suffix isPySpace).sublist.subset h2

theorem normCore_facts (m : List Char) :
    (∀ c ∈ normCore m, c = ' ' ∨ (c ∈ m ∧ keepWordSpace c = true ∧ isPySpace c = false))
    ∧ List.Chain' (fun a c => isPySpace a = false ∨ isPySpace c = false) (normCore m)
    ∧ (∀ c, (normCore m).head? = some c → isPySpace c = false)
    ∧ (∀ c, (normCore m).getLast? = some c → isPySpace c = false) := by
  refine ⟨?_, ?_, ?_, ?_⟩
  · intro c hc
    have h1 := mem_pyStripList hc
    rcases mem_collapseAux _ false c h1 with h2 | ⟨h2, h3⟩
    · exact Or.inl h2
    · have h4 := List.mem_filter.mp h2
      exact Or.inr ⟨h4.1, h4.2, h3⟩
  · have hch := chain_collapseAux (m.filter keepWordSpace) false
    unfold normCore pyStripList
    have hsymm : ∀ x : List Char,
        List.Chain' (fun a c => isPySpace a = false ∨ isPySpace c = false) x →
        List.Chain' (fun a c => isPySpace a = false ∨ isPySpace c = false) x.reverse := by
      intro x hx
      rw [List.chain'_reverse]
      exact hx.imp (fun a c hac => hac.symm)
    apply hsymm
    apply List.Chain'.suffix _ (List.dropWhile_suffix isPySpace)
    apply hsymm
    exact hch.suffix (List.dropWhile_suffix isPySpace)
  · exact pyStripList_head_not_space _
  · exact pyStripList_getLast_not_space _

theorem normCore_idem (m : List Char) : normCore (normCore m) = normCore m := by
  obtain ⟨hmem, hch, hhd, hlast⟩ := normCore_facts m
  have hfil : (normCore m).filter keepWordSpace = normCore m := by
    rw [List.filter_eq_self]
    intro a ha
    rcases hmem a ha with h1 | ⟨_, h2, _⟩
    · rw [h1]; decide
    · exact h2
  have hsp : ∀ c ∈ normCore m, isPySpace c = true → c = ' ' := by
    intro c hc hspc
    rcases hmem c hc with h1 | ⟨_, _, h3⟩
    · exact h1
    · exact absurd hspc (by simp [h3])
  have hcol : collapseWS (normCore m) = normCore m := by
    unfold collapseWS
    exact collapseAux_eq_self _ false hsp hch (fun hfalse => by simp at hfalse)
  have hstr : pyStripList (normCore m) = normCore m := strip_eq_self _ hhd hlast
  show pyStripList (collapseWS ((normCore m).filter keepWordSpace)) = normCore m
  rw [hfil, hcol, hstr]

/-! ## Claim C8: the normalizer is idempotent -/

/-- C8: normalize_text is idempotent on every input, for every
transliteration function satisfying the unidecode contract: ASCII output,
identity on ASCII input. -/
theorem c8_normalize_idempotent (ud : String → String)
    (h1 : ∀ s, allAscii (ud s) = true) (h2 : ∀ s, allAscii s = true → ud s = s)
    (x : String) :
    normalize_text ud (normalize_text ud x) = normalize_text ud x := by
  set m := (pyUpper (ud x)).data with hm
  have hydata : (normalize_text ud x).data = normCore m := rfl
  obtain ⟨hmem, _, _, _⟩ := normCore_facts m
  have hmchar : ∀ c ∈ m, c.toNat ≤ 127 ∧ Char.toUpper c = c := by
    intro c hc
    rw [hm] at hc
    have hc2 : c ∈ (ud x).data.map Char.toUpper := hc
    obtain ⟨b, hb, rfl⟩ := List.mem_map.mp hc2
    have hba : b.toNat ≤ 127 := by
      have := h1 x
      simp only [allAscii, List.all_eq_true, decide_eq_true_eq] at this
      exact this b hb
    exact ⟨toUpper_toNat_le b hba, toUpper_toUpper b⟩
  have hchar : ∀ c ∈ (normalize_text ud x).data, c.toNat ≤ 127 ∧ Char.toUpper c = c := by
    intro c hc
    rw [hydata] at hc
    rcases hmem c hc with hsp | ⟨hcm, _, _⟩
    · rw [hsp]; exact ⟨by decide, by decide⟩
    · exact hmchar c hcm
  have hud : ud (normalize_text ud x) = normalize_text ud x := by
    apply h2
    simp only [allAscii, List.all_eq_true, decide_eq_true_eq]
    exact fun c hc => (hchar c hc).1
  show String.mk (normCore (pyUpper (ud (normalize_text ud x))).data) = normalize_text ud x
  rw [hud]
  have hupper : (pyUpper (normalize_text ud x)).data = normCore m := by
    show (normalize_text ud x).data.map Char.toUpper = normCore m
    rw [map_id_of_fixed (fun c hc => (hchar c hc).2), hydata]
  rw [hupper, normCore_idem]
  rfl

theorem c8_normalize_idempotent_witness :
    normalize_text udModel (normalize_text udModel " a,  B c ") = normalize_text udModel " a,  B c " :=
  c8_normalize_idempotent udModel udModel_ascii udModel_id " a,  B c "

/-! ## Claim C10: shape of normalized text -/

theorem splitSeps_no_sep (l : List Char) (h : ∀ c ∈ l, isSepChar c = false) :
    splitSeps l = [l] := by
  induction l with
  | nil => rfl
  | cons d ds ih =>
    rw [splitSeps]
    rw [if_neg (by simp [h d (List.mem_cons_self d ds)])]
    rw [ih (fun c hc => h c (List.mem_cons_of_mem d hc))]

theorem pyParts_of_no_sep (s : String) (h : ∀ c ∈ s.data, isSepChar c = false) :
    (pyParts s).length ≤ 1 := by
  unfold pyParts
  rw [splitSeps_no_sep s.data h]
  have := List.length_filter_le (fun t => !(t == "")) [String.mk (pyStripList s.data)]
  simpa using this

theorem mem_subWordFuel (k v : List Char) (fuel : Nat) :
    ∀ (prev : Option Char) (l : List Char) (c : Char),
      c ∈ subWordFuel k v fuel prev l → c ∈ v ∨ c ∈ l := by
  induction fuel with
  | zero => intro prev l c h; exact Or.inr h
  | succ f ih =>
    intro prev l c h
    cases l with
    | nil => simp [subWordFuel] at h
    | cons d ds =>
      rw [subWordFuel] at h
      split at h
      · rcases List.mem_append.mp h with h1 | h1
        · exact Or.inl h1
        · rcases ih _ _ c h1 with h2 | h2
          · exact Or.inl h2
          · exact Or.inr (List.mem_of_mem_drop h2)
      · rcases List.mem_cons.mp h with h1 | h1
        · exact Or.inr (h1 ▸ List.mem_cons_self d ds)
        · rcases ih _ _ c h1 with h2 | h2
          · exact Or.inl h2
          · exact Or.inr (List.mem_cons_of_mem d h2)

theorem foldl_subWord_no_sep (prs : List (String × String)) :
    (∀ kv ∈ prs, ∀ c ∈ kv.2.data, isSepChar c = false) →
    ∀ s : String, (∀ c ∈ s.data, isSepChar c = false) →
      ∀ c ∈ (prs.foldl (fun acc kv => String.mk (subWordAll kv.1.data kv.2.data acc.data)) s).data,
        isSepChar c = false := by
  induction prs with
  | nil => intro _ s hs; simpa using hs
  | cons kv rest ih =>
    intro hv s hs
    rw [List.foldl_cons]
    apply ih (fun kv2 hkv2 => hv kv2 (List.mem_cons_of_mem _ hkv2))
    intro c hc
    rcases mem_subWordFuel _ _ _ _ _ c hc with h1 | h1
    · exact hv kv (List.mem_cons_self _ _) c h1
    · exact hs c h1

/-- C10: the output of normalize_text consists only of ASCII word
characters fixed by upper-casing and single interior spaces; it contains
no comma, semicolon or newline, so the split performed by the parser and
the string standardizer, both on the normalized text and on its
SHORT_FORMS expansion, yields at most one part. -/
theorem c10_normalized_shape (ud : String → String)
    (h1 : ∀ s, allAscii (ud s) = true) (x : String) :
    (∀ c ∈ (normalize_text ud x).data,
      (isWordChar c = true ∨ c = ' ') ∧ c.toNat ≤ 127 ∧ Char.toUpper c = c)
    ∧ ',' ∉ (normalize_text ud x).data
    ∧ ';' ∉ (normalize_text ud x).data
    ∧ '\n' ∉ (normalize_text ud x).data
    ∧ List.Chain' (fun a b => ¬(a = ' ' ∧ b = ' ')) (normalize_text ud x).data
    ∧ (normalize_text ud x).data.head? ≠ some ' '
    ∧ (normalize_text ud x).data.getLast? ≠ some ' '
    ∧ (pyParts (normalize_text ud x)).length ≤ 1
    ∧ (pyParts (expandShortForms (normalize_text ud x))).length ≤ 1 := by
  set m := (pyUpper (ud x)).data with hm
  have hydata : (normalize_text ud x).data = normCore m := rfl
  obtain ⟨hmem, hch, hhd, hlast⟩ := normCore_facts m
  have hmchar : ∀ c ∈ m, c.toNat ≤ 127 ∧ Char.toUpper c = c := by
    intro c hc
    rw [hm] at hc
    obtain ⟨b, hb, rfl⟩ := List.mem_map.mp hc
    have hba : b.toNat ≤ 127 := by
      have := h1 x
      simp only [allAscii, List.all_eq_true, decide_eq_true_eq] at this
      exact this b hb
    exact ⟨toUpper_toNat_le b hba, toUpper_toUpper b⟩
  have hshape : ∀ c ∈ (normalize_text ud x).data,
      (isWordChar c = true ∨ c = ' ') ∧ c.toNat ≤ 127 ∧ Char.toUpper c = c := by
    intro c hc
    rw [hydata] at hc
    rcases hmem c hc with hsp | ⟨hcm, hkeep, hnsp⟩
    · rw [hsp]; exact ⟨Or.inr rfl, by decide, by decide⟩
    · refine ⟨?_, hmchar c hcm⟩
      rcases Bool.or_eq_true_iff.mp (by simpa [keepWordSpace] using hkeep) with h3 | h3
      · exact Or.inl h3
      · exact absurd h3 (by simp [hnsp])
  have hnosep : ∀ c ∈ (normalize_text ud x).data, isSepChar c = false := by
    intro c hc
    rw [hydata] at hc
    rcases hmem c hc with hsp | ⟨_, hkeep, hnsp⟩
    · rw [hsp]; decide
    · by_contra hsep
      rw [Bool.not_eq_false] at hsep
      have h3 : (c = ',' ∨ c = ';') ∨ c = '\n' := by simpa [isSepChar] using hsep
      rcases h3 with (h4 | h4) | h4 <;> subst h4
      · exact absurd hkeep (by decide)
      · exact absurd hkeep (by decide)
      · exact absurd hnsp (by decide)
  refine ⟨hshape, ?_, ?_, ?_, ?_, ?_, ?_, ?_, ?_⟩
  · intro hmemc
    have := hnosep _ hmemc
    simp [isSepChar] at this
  · intro hmemc
    have := hnosep _ hmemc
    simp [isSepChar] at this
  · intro hmemc
    have := hnosep _ hmemc
    simp [isSepChar] at this
  · rw [hydata]
    exact hch.imp (fun a b hab h0 => by
      rcases hab with h3 | h3
      · rw [h0.1] at h3; exact absurd h3 (by decide)
      · rw [h0.2] at h3; exact absurd h3 (by decide))
  · intro h0
    rw [hydata] at h0
    have := hhd ' ' h0
    exact absurd this (by decide)
  · intro h0
    rw [hydata] at h0
    have := hlast ' ' h0
    exact absurd this (by decide)
  · exact pyParts_of_no_sep _ hnosep
  · apply pyParts_of_no_sep
    unfold expandShortForms
    exact foldl_subWord_no_sep SHORT_FORMS (by decide) _ hnosep

theorem c10_normalized_shape_witness :
    (pyParts (normalize_text udModel "12 Oak Rd,; Springfield")).length ≤ 1
    ∧ ',' ∉ (normalize_text udModel "12 Oak Rd,; Springfield").data :=
  ⟨(c10_normalized_shape udModel udModel_ascii "12 Oak Rd,; Springfield").2.2.2.2.2.2.2.1,
   (c10_normalized_shape udModel udModel_ascii "12 Oak Rd,; Springfield").2.1⟩

/-! ## Claim C9: page discovery ordering -/

theorem foldl_dedupStep (l : List String) :
    ∀ o seenL : List String,
      l.foldl dedupStep (o, seenL)
        = (o ++ dedupList seenL l, (dedupList seenL l).reverse ++ seenL) := by
  induction l with
  | nil => intro o seenL; simp [dedupList]
  | cons p ps ih =>
    intro o seenL
    rw [List.foldl_cons]
    by_cases hp : p ∈ seenL
    · rw [show dedupStep (o, seenL) p = (o, seenL) from if_pos hp]
      rw [ih o seenL]
      rw [dedupList, if_pos hp]
    · rw [show dedupStep (o, seenL) p = (o ++ [p], p :: seenL) from if_neg hp]
      rw [ih (o ++ [p]) (p :: seenL)]
      rw [dedupList, if_neg hp]
      simp [List.append_assoc, List.reverse_cons]

theorem foldl_guard_filter (P : String → Bool) (l : List String) :
    ∀ acc : List String × List String,
      l.foldl (fun a p => if P p then dedupStep a p else a) acc
        = (l.filter P).foldl dedupStep acc := by
  induction l with
  | nil => intro acc; rfl
  | cons p ps ih =>
    intro acc
    rw [List.foldl_cons, List.filter_cons]
    by_cases hp : P p = true
    · rw [if_pos hp, if_pos hp, List.foldl_cons]
      exact ih _
    · rw [if_neg hp, if_neg hp]
      exact ih _

theorem dedupList_sublist (l : List String) :
    ∀ seen, (dedupList seen l).Sublist l := by
  induction l with
  | nil => intro seen; exact List.Sublist.refl []
  | cons p ps ih =>
    intro seen
    rw [dedupList]
    split
    · exact (ih seen).cons p
    · exact (ih (p :: seen)).cons₂ p

theorem mem_dedupList (l : List String) :
    ∀ seen c, c ∈ dedupList seen l ↔ c ∈ l ∧ c ∉ seen := by
  induction l with
  | nil => intro seen c; simp [dedupList]
  | cons p ps ih =>
    intro seen c
    rw [dedupList]
    split
    · rename_i hp
      rw [ih seen c]
      simp only [List.mem_cons]
      constructor
      · rintro ⟨h1, h2⟩
        exact ⟨Or.inr h1, h2⟩
      · rintro ⟨h1 | h1, h2⟩
        · exact absurd (h1 ▸ hp) h2
        · exact ⟨h1, h2⟩
    · rename_i hp
      simp only [List.mem_cons, ih (p :: seen) c, List.mem_cons]
      constructor
      · rintro (rfl | ⟨h1, h2⟩)
        · exact ⟨Or.inl rfl, hp⟩
        · exact ⟨Or.inr h1, fun h3 => h2 (Or.inr h3)⟩
      · rintro ⟨rfl | h1, h2⟩
        · exact Or.inl rfl
        · by_cases hcp : c = p
          · exact Or.inl hcp
          · exact Or.inr ⟨h1, fun h3 => (by tauto : False)⟩

theorem dedupList_nodup (l : List String) :
    ∀ seen, (dedupList seen l).Nodup := by
  induction l with
  | nil => intro seen; simp [dedupList]
  | cons p ps ih =>
    intro seen
    rw [dedupList]
    split
    · exact ih seen
    · rw [List.nodup_cons]
      refine ⟨?_, ih (p :: seen)⟩
      intro hmem
      exact ((mem_dedupList ps (p :: seen) p).mp hmem).2 (List.mem_cons_self p seen)

/-- C9: the page list returned by find_pages_from_home has no duplicates,
has length at most max_pages, puts every URL containing a preferred
keyword before every URL containing none, and preserves the relative
discovery order within the preferred and the non-preferred group (each
group is a subsequence of the correspondingly filtered discovery list). -/
theorem c9_page_order (fetch : String → Option Page) (home_url : String) (max_pages : Nat) :
    (find_pages_from_home fetch home_url max_pages).Nodup
    ∧ (find_pages_from_home fetch home_url max_pages).length ≤ max_pages
    ∧ (∀ i j, i < j → j < (find_pages_from_home fetch home_url max_pages).length →
        isPreferredPage ((find_pages_from_home fetch home_url max_pages).getD j "") = true →
        isPreferredPage ((find_pages_from_home fetch home_url max_pages).getD i "") = true)
    ∧ ((find_pages_from_home fetch home_url max_pages).filter isPreferredPage).Sublist
        ((discovered_pages fetch home_url max_pages).filter isPreferredPage)
    ∧ ((find_pages_from_home fetch home_url max_pages).filter
        (fun p => !isPreferredPage p)).Sublist
        ((discovered_pages fetch home_url max_pages).filter (fun p => !isPreferredPage p)) := by
  set pages := discovered_pages fetch home_url max_pages with hpages
  set part1 := dedupList [] (pages.filter isPreferredPage) with hpart1
  set part2 := dedupList part1.reverse pages with hpart2
  have hout : find_pages_from_home fetch home_url max_pages
      = (part1 ++ part2).take max_pages := by
    unfold find_pages_from_home
    rw [← hpages]
    dsimp only
    rw [foldl_guard_filter isPreferredPage pages ([], [])]
    rw [foldl_dedupStep (pages.filter isPreferredPage) [] []]
    simp only [List.nil_append, List.append_nil]
    rw [← hpart1]
    rw [foldl_dedupStep pages part1 part1.reverse]
  have hA : ∀ c ∈ part1, isPreferredPage c = true := by
    intro c hc
    have := ((mem_dedupList _ _ c).mp hc).1
    exact (List.mem_filter.mp this).2
  have hB : ∀ c ∈ part2, isPreferredPage c = false := by
    intro c hc
    obtain ⟨hcp, hcs⟩ := (mem_dedupList _ _ c).mp hc
    by_contra hpc
    rw [Bool.not_eq_false] at hpc
    apply hcs
    rw [List.mem_reverse]
    rw [mem_dedupList]
    exact ⟨List.mem_filter.mpr ⟨hcp, hpc⟩, List.not_mem_nil c⟩
  have hnodup : (part1 ++ part2).Nodup := by
    apply List.Nodup.append (dedupList_nodup _ _) (dedupList_nodup _ _)
    intro c hc1 hc2
    have := hA c hc1
    rw [hB c hc2] at this
    exact Bool.noConfusion this
  refine ⟨?_, ?_, ?_, ?_, ?_⟩
  · rw [hout]
    exact hnodup.sublist (List.take_sublist _ _)
  · rw [hout]
    exact List.length_take_le _ _
  · intro i j hij hj hpref
    rw [hout] at hj hpref ⊢
    have hlen : ((part1 ++ part2).take max_pages).length ≤ (part1 ++ part2).length := by
      rw [List.length_take]
      exact min_le_right _ _
    have hj2 : j < (part1 ++ part2).length := lt_of_lt_of_le hj hlen
    have hi : i < ((part1 ++ part2).take max_pages).length := lt_trans hij hj
    have hi2 : i < (part1 ++ part2).length := lt_of_lt_of_le hi hlen
    rw [List.getD_eq_getElem _ _ hj] at hpref
    rw [List.getD_eq_getElem _ _ hi]
    rw [List.getElem_take] at hpref
    rw [List.getElem_take]
    have hjp1 : j < part1.length := by
      by_contra hge
      push_neg at hge
      rw [List.getElem_append_right hge] at hpref
      rw [hB _ (List.getElem_mem _)] at hpref
      exact Bool.noConfusion hpref
    have hip1 : i < part1.length := lt_trans hij hjp1
    rw [List.getElem_append_left hip1]
    exact hA _ (List.getElem_mem _)
  · rw [hout]
    have hfs := (List.take_sublist max_pages (part1 ++ part2)).filter isPreferredPage
    have heq : (part1 ++ part2).filter isPreferredPage = part1 := by
      rw [List.filter_append, List.filter_eq_self.mpr hA,
        List.filter_eq_nil_iff.mpr (fun a ha => by simp [hB a ha])]
      simp
    rw [heq] at hfs
    exact hfs.trans (dedupList_sublist _ _)
  · rw [hout]
    have hfs := (List.take_sublist max_pages (part1 ++ part2)).filter
      (fun p => !isPreferredPage p)
    have heq : (part1 ++ part2).filter (fun p => !isPreferredPage p) = part2 := by
      rw [List.filter_append,
        List.filter_eq_nil_iff.mpr (fun a ha => by simp [hA a ha]),
        List.filter_eq_self.mpr (fun a ha => by simp [hB a ha])]
      simp
    rw [heq] at hfs
    have h3 := (dedupList_sublist pages part1.reverse).filter (fun p => !isPreferredPage p)
    rw [List.filter_eq_self.mpr (fun a ha => by simp [hB a ha])] at h3
    exact hfs.trans h3

set_option maxRecDepth 40000 in
theorem c9_page_order_witness :
    (find_pages_from_home (fun _ => none) "x.com" 10).Nodup
    ∧ (find_pages_from_home (fun _ => none) "x.com" 10).length ≤ 10
    ∧ isPreferredPage ((find_pages_from_home (fun _ => none) "x.com" 10).getD 0 "") = true :=
  ⟨(c9_page_order (fun _ => none) "x.com" 10).1,
   (c9_page_order (fun _ => none) "x.com" 10).2.1,
   (c9_page_order (fun _ => none) "x.com" 10).2.2.1 0 1 (by decide) (by decide) (by decide)⟩

/-! ## Claim C6: the deduplication registry -/

theorem dedupGo_cons_some (r : AddressRec) (rest : List AddressRec)
    (seen : List (String × String)) (m : String)
    (hlk : List.lookup (hash_address r) seen = some m) :
    dedupGo (r :: rest) seen = ("YES", m) :: dedupGo rest seen := by
  simp [dedupGo, hlk]

theorem dedupGo_cons_none (r : AddressRec) (rest : List AddressRec)
    (seen : List (String × String))
    (hlk : List.lookup (hash_address r) seen = none) :
    dedupGo (r :: rest) seen
      = ("NO", strTake (hash_address r) 8)
        :: dedupGo rest ((hash_address r, strTake (hash_address r) 8) :: seen) := by
  simp [dedupGo, hlk]

theorem lookup_cons_ne {h k b : String} {es : List (String × String)}
    (hne : (h == k) = false) : List.lookup h ((k, b) :: es) = List.lookup h es := by
  simp [List.lookup, hne]

theorem dedupGo_yes_of_lookup (recs : List AddressRec) :
    ∀ (seen : List (String × String)) (h m : String), List.lookup h seen = some m →
      ∀ j, j < recs.length → hash_address (recs.getD j emptyRec) = h →
        (dedupGo recs seen).getD j ("", "") = ("YES", m) := by
  induction recs with
  | nil => intro seen h m _ j hj _; exact absurd hj (by simp)
  | cons r rest ih =>
    intro seen h m hlk j hj hhash
    cases hlk2 : List.lookup (hash_address r) seen with
    | some m2 =>
      rw [dedupGo_cons_some r rest seen m2 hlk2]
      cases j with
      | zero =>
        rw [List.getD_cons_zero] at hhash
        rw [hhash] at hlk2
        rw [hlk] at hlk2
        rw [List.getD_cons_zero, (Option.some.injEq _ _).mp hlk2]
      | succ j2 =>
        rw [List.getD_cons_succ] at hhash ⊢
        exact ih seen h m hlk j2 (by simpa using hj) hhash
    | none =>
      rw [dedupGo_cons_none r rest seen hlk2]
      cases j with
      | zero =>
        rw [List.getD_cons_zero] at hhash
        rw [hhash] at hlk2
        rw [hlk] at hlk2
        exact Option.noConfusion hlk2
      | succ j2 =>
        rw [List.getD_cons_succ] at hhash ⊢
        apply ih _ h m _ j2 (by simpa using hj) hhash
        have hne : (h == hash_address r) = false := by
          rw [beq_eq_false_iff_ne]
          intro heq
          rw [← heq] at hlk2
          rw [hlk] at hlk2
          exact Option.noConfusion hlk2
        rw [lookup_cons_ne hne]
        exact hlk

theorem dedupGo_first_no (recs : List AddressRec) :
    ∀ (seen : List (String × String)) (i : Nat), i < recs.length →
      List.lookup (hash_address (recs.getD i emptyRec)) seen = none →
      (∀ k, k < i → hash_address (recs.getD k emptyRec)
        ≠ hash_address (recs.getD i emptyRec)) →
      (dedupGo recs seen).getD i ("", "")
        = ("NO", strTake (hash_address (recs.getD i emptyRec)) 8) := by
  induction recs with
  | nil => intro seen i hi _ _; exact absurd hi (by simp)
  | cons r rest ih =>
    intro seen i hi hlk hk
    cases i with
    | zero =>
      rw [List.getD_cons_zero] at hlk ⊢
      rw [dedupGo_cons_none r rest seen hlk]
      rw [List.getD_cons_zero]
    | succ i2 =>
      rw [List.getD_cons_succ] at hlk ⊢
      have hk2 : ∀ k, k < i2 → hash_address (rest.getD k emptyRec)
          ≠ hash_address (rest.getD i2 emptyRec) := by
        intro k hk3
        have := hk (k + 1) (by omega)
        rwa [List.getD_cons_succ, List.getD_cons_succ] at this
      cases hlk2 : List.lookup (hash_address r) seen with
      | some m2 =>
        rw [dedupGo_cons_some r rest seen m2 hlk2, List.getD_cons_succ]
        exact ih seen i2 (by simpa using hi) hlk hk2
      | none =>
        rw [dedupGo_cons_none r rest seen hlk2, List.getD_cons_succ]
        apply ih _ i2 (by simpa using hi) _ hk2
        have hne : (hash_address (rest.getD i2 emptyRec) == hash_address r) = false := by
          rw [beq_eq_false_iff_ne]
          intro heq
          have h0 := hk 0 (by omega)
          rw [List.getD_cons_zero, List.getD_cons_succ] at h0
          exact h0 heq.symm
        rw [lookup_cons_ne hne]
        exact hlk

theorem dedupGo_same_master (recs : List AddressRec) :
    ∀ (seen : List (String × String)) (i j : Nat), i ≤ j → j < recs.length →
      hash_address (recs.getD i emptyRec) = hash_address (recs.getD j emptyRec) →
      ((dedupGo recs seen).getD i ("", "")).2 = ((dedupGo recs seen).getD j ("", "")).2 := by
  induction recs with
  | nil => intro seen i j _ hj _; exact absurd hj (by simp)
  | cons r rest ih =>
    intro seen i j hij hj hhash
    cases i with
    | zero =>
      cases j with
      | zero => rfl
      | succ j2 =>
        rw [List.getD_cons_zero, List.getD_cons_succ] at hhash
        cases hlk : List.lookup (hash_address r) seen with
        | some m =>
          rw [dedupGo_cons_some r rest seen m hlk]
          rw [List.getD_cons_zero, List.getD_cons_succ]
          rw [dedupGo_yes_of_lookup rest seen (hash_address r) m hlk j2
            (by simpa using hj) hhash.symm]
        | none =>
          rw [dedupGo_cons_none r rest seen hlk]
          rw [List.getD_cons_zero, List.getD_cons_succ]
          rw [dedupGo_yes_of_lookup rest _ (hash_address r) (strTake (hash_address r) 8)
            (by simp [List.lookup]) j2 (by simpa using hj) hhash.symm]
    | succ i2 =>
      cases j with
      | zero => omega
      | succ j2 =>
        rw [List.getD_cons_succ, List.getD_cons_succ] at hhash
        cases hlk : List.lookup (hash_address r) seen with
        | some m =>
          rw [dedupGo_cons_some r rest seen m hlk]
          rw [List.getD_cons_succ, List.getD_cons_succ]
          exact ih seen i2 j2 (by omega) (by simpa using hj) hhash
        | none =>
          rw [dedupGo_cons_none r rest seen hlk]
          rw [List.getD_cons_succ, List.getD_cons_succ]
          exact ih _ i2 j2 (by omega) (by simpa using hj) hhash

theorem dedupGo_later_yes (recs : List AddressRec) :
    ∀ (seen : List (String × String)) (i j : Nat), i < j → j < recs.length →
      hash_address (recs.getD i emptyRec) = hash_address (recs.getD j emptyRec) →
      ((dedupGo recs seen).getD j ("", "")).1 = "YES" := by
  induction recs with
  | nil => intro seen i j _ hj _; exact absurd hj (by simp)
  | cons r rest ih =>
    intro seen i j hij hj hhash
    cases i with
    | zero =>
      cases j with
      | zero => omega
      | succ j2 =>
        rw [List.getD_cons_zero, List.getD_cons_succ] at hhash
        cases hlk : List.lookup (hash_address r) seen with
        | some m =>
          rw [dedupGo_cons_some r rest seen m hlk]
          rw [List.getD_cons_succ]
          rw [dedupGo_yes_of_lookup rest seen (hash_address r) m hlk j2
            (by simpa using hj) hhash.symm]
        | none =>
          rw [dedupGo_cons_none r rest seen hlk]
          rw [List.getD_cons_succ]
          rw [dedupGo_yes_of_lookup rest _ (hash_address r) (strTake (hash_address r) 8)
            (by simp [List.lookup]) j2 (by simpa using hj) hhash.symm]
    | succ i2 =>
      cases j with
      | zero => omega
      | succ j2 =>
        rw [List.getD_cons_succ, List.getD_cons_succ] at hhash
        cases hlk : List.lookup (hash_address r) seen with
        | some m =>
          rw [dedupGo_cons_some r rest seen m hlk]
          rw [List.getD_cons_succ]
          exact ih seen i2 j2 (by omega) (by simpa using hj) hhash
        | none =>
          rw [dedupGo_cons_none r rest seen hlk]
          rw [List.getD_cons_succ]
          exact ih _ i2 j2 (by omega) (by simpa using hj) hhash

/-- C6 (amended): records with identical fingerprint fields always hash
to the same fingerprint and always receive the same master record id
within a run; the first record of a run carrying a given fingerprint is
flagged NO with master id equal to the first eight characters of the
fingerprint, and every later record with the same fingerprint is flagged
YES. Stated per fingerprint rather than per field tuple, because
distinct field tuples can share a fingerprint. -/
theorem c6_registry :
    (∀ r1 r2 : AddressRec, fingerprintFields r1 = fingerprintFields r2 →
      hash_address r1 = hash_address r2)
    ∧ (∀ (recs : List AddressRec) (i j : Nat), i ≤ j → j < recs.length →
        hash_address (recs.getD i emptyRec) = hash_address (recs.getD j emptyRec) →
        ((dedupRun recs).getD i ("", "")).2 = ((dedupRun recs).getD j ("", "")).2)
    ∧ (∀ (recs : List AddressRec) (i : Nat), i < recs.length →
        (∀ k, k < i → hash_address (recs.getD k emptyRec)
          ≠ hash_address (recs.getD i emptyRec)) →
        (dedupRun recs).getD i ("", "")
          = ("NO", strTake (hash_address (recs.getD i emptyRec)) 8))
    ∧ (∀ (recs : List AddressRec) (i j : Nat), i < j → j < recs.length →
        hash_address (recs.getD i emptyRec) = hash_address (recs.getD j emptyRec) →
        ((dedupRun recs).getD j ("", "")).1 = "YES") := by
  refine ⟨?_, ?_, ?_, ?_⟩
  · intro r1 r2 hf
    unfold hash_address hashKey
    simp only [fingerprintFields, Prod.mk.injEq] at hf
    rw [hf.1, hf.2.1, hf.2.2.1, hf.2.2.2.1, hf.2.2.2.2]
  · intro recs i j hij hj hh
    exact dedupGo_same_master recs [] i j hij hj hh
  · intro recs i hi hk
    exact dedupGo_first_no recs [] i hi rfl hk
  · intro recs i j hij hj hh
    exact dedupGo_later_yes recs [] i j hij hj hh

theorem c6_registry_witness :
    (dedupRun [recOnlyStreet, recOnlyStreet]).getD 0 ("", "")
        = ("NO", strTake (hash_address recOnlyStreet) 8)
    ∧ ((dedupRun [recOnlyStreet, recOnlyStreet]).getD 1 ("", "")).1 = "YES" :=
  ⟨c6_registry.2.2.1 [recOnlyStreet, recOnlyStreet] 0 (by decide)
      (fun k hk => absurd hk (by omega)),
   c6_registry.2.2.2 [recOnlyStreet, recOnlyStreet] 0 1 (by omega) (by decide) rfl⟩
